import Mathlib

/-!
Verification of the prompt pre-processing engine
(`src/utils/processors/pre-processor.ts`).

JavaScript strings are modelled as `List Char`.  The two regex shapes used by
the registry (`/\$SCREEN_OCR/g`, `/\$MEMORY@([a-zA-Z0-9_]+)/g`, `/\$SCREEN_64/g`)
are modelled by `Pat`; `execPat` models `RegExp.exec` with an explicit
`lastIndex`, and `jsReplace` models `String.prototype.replace` with a string
search value and a string replacement, including the ECMA-262 `GetSubstitution`
treatment of the dollar escape sequences in the replacement string.
Asynchronous capability providers are an explicit environment `Env` of
deterministic, possibly throwing operations (`Except`); JavaScript exceptions
are the `Except.error` constructor.  The `while`-loop of `preProcess` is given
explicit fuel: `none` models a run that does not terminate within the fuel.
-/

abbrev Str := List Char

/-- `leadsWith tok s`: the string `s` starts with the token `tok`. -/
def leadsWith : Str → Str → Bool
  | [], _ => true
  | _ :: _, [] => false
  | a :: tk, b :: s => a == b && leadsWith tk s

/-- Index of the first occurrence of `tok` in `s`, if any
(JavaScript `String.prototype.indexOf`). -/
def findTok (tok : Str) : Str → Option Nat
  | [] => if leadsWith tok [] then some 0 else none
  | c :: rest =>
    if leadsWith tok (c :: rest) then some 0
    else
      match findTok tok rest with
      | some n => some (n + 1)
      | none => none

/-- The backquote character, used by the dollar escape for the preceding text. -/
def bqChar : Char := Char.ofNat 96

/-- The single-quote character, used by the dollar escape for the following text. -/
def sqChar : Char := Char.ofNat 39

/-- ECMA-262 `GetSubstitution` for a string search value: expand the dollar
escape sequences of the replacement string.  `matched` is the matched
substring, `before` the part of the subject before the match, `after` the part
after it. -/
def getSubstitution (matched before after : Str) : Str → Str
  | [] => []
  | [c] => [c]
  | c :: d :: rest2 =>
    if c = '$' then
      if d = '$' then '$' :: getSubstitution matched before after rest2
      else if d = '&' then matched ++ getSubstitution matched before after rest2
      else if d = bqChar then before ++ getSubstitution matched before after rest2
      else if d = sqChar then after ++ getSubstitution matched before after rest2
      else c :: getSubstitution matched before after (d :: rest2)
    else c :: getSubstitution matched before after (d :: rest2)

/-- JavaScript `s.replace(tok, repl)` with a string pattern: replace the first
occurrence of `tok` in `s` by the dollar-expanded replacement. -/
def jsReplace (tok repl s : Str) : Str :=
  match findTok tok s with
  | none => s
  | some p =>
      s.take p ++ getSubstitution tok (s.take p) (s.drop (p + tok.length)) repl
        ++ s.drop (p + tok.length)

/-- Characters matched by the class `[a-zA-Z0-9_]` of the MEMORY regex. -/
def isIdChar (c : Char) : Bool :=
  (('a' ≤ c && c ≤ 'z') || ('A' ≤ c && c ≤ 'Z') || ('0' ≤ c && c ≤ '9') || c = '_')

/-- The literal head of the MEMORY pattern. -/
def memTok : Str := "$MEMORY@".toList

/-- The marker of the SCREEN_OCR directive. -/
def ocrTok : Str := "$SCREEN_OCR".toList

/-- The marker of the SCREEN_64 directive. -/
def s64Tok : Str := "$SCREEN_64".toList

/-- The two regex shapes appearing in the processor registry: a literal token
(`/\$SCREEN_OCR/g`, `/\$SCREEN_64/g`) and the MEMORY pattern
(`/\$MEMORY@([a-zA-Z0-9_]+)/g`). -/
inductive Pat
  | lit (tok : Str)
  | memory
deriving DecidableEq

/-- Try to match the pattern at the head of `u`; on success return the matched
substring and the optional capture (`match[1]`). -/
def tryAt (p : Pat) (u : Str) : Option (Str × Option Str) :=
  match p with
  | .lit tok => if leadsWith tok u then some (tok, none) else none
  | .memory =>
    if leadsWith memTok u then
      if (u.drop memTok.length).takeWhile isIdChar = [] then none
      else
        some (memTok ++ (u.drop memTok.length).takeWhile isIdChar,
          some ((u.drop memTok.length).takeWhile isIdChar))
    else none

/-- Leftmost match of the pattern in `s`: position, matched substring, capture. -/
def scanPat (p : Pat) : Str → Option (Nat × Str × Option Str)
  | [] =>
    match tryAt p [] with
    | some r => some (0, r)
    | none => none
  | c :: rest =>
    match tryAt p (c :: rest) with
    | some r => some (0, r)
    | none =>
      match scanPat p rest with
      | some x => some (x.1 + 1, x.2)
      | none => none

/-- `RegExp.exec` on a global regex with `lastIndex = i`: first match at a
position `≥ i`. -/
def execPat (p : Pat) (s : Str) (i : Nat) : Option (Nat × Str × Option Str) :=
  (scanPat p (s.drop i)).map (fun x => (i + x.1, x.2))

/-- The result structure of the pre-processor (`PreProcessorResult`):
`images = none` models an absent (`undefined`) field. -/
structure PreProcessorResult where
  modifiedPrompt : Str
  images : Option (List Str)
deriving DecidableEq

/-- A resolver outcome: both fields optional, as in the TypeScript record
`{ replacementText?: string; images?: string[] }`. -/
structure Outcome where
  replacementText : Option Str
  images : Option (List Str)
deriving DecidableEq

/-- A resolver: receives the agent id, the current prompt and the match data
(matched substring, capture), and may throw. -/
abbrev ProcessorFunction := Str → Str → Str × Option Str → Except Str Outcome

/-- One registry entry: a pattern and its resolver. -/
structure Processor where
  pat : Pat
  handler : ProcessorFunction

/-- The external capability providers, as a deterministic environment.
`startScreenCapture` yields a stream handle or a falsy value (`none`);
`captureScreenImage` yields a base64 string or `null`; all four may throw. -/
structure Env where
  startScreenCapture : Except Str (Option Unit)
  captureFrameAndOCRSuccess : Bool
  captureFrameAndOCRText : Option Str
  captureFrameAndOCRThrows : Option Str
  captureScreenImage : Except Str (Option Str)
  getAgentMemory : Str → Except Str Str

/-- The `captureFrameAndOCR` provider assembled from the environment fields:
either a thrown error or a result record `{ success, text }`. -/
def Env.captureFrameAndOCR (env : Env) : Except Str (Bool × Option Str) :=
  match env.captureFrameAndOCRThrows with
  | some e => Except.error e
  | none => Except.ok (env.captureFrameAndOCRSuccess, env.captureFrameAndOCRText)

/-- Error literal `[Error performing OCR]`. -/
def errOcr : Str := "[Error performing OCR]".toList

/-- Error literal `[Error with screen capture]`. -/
def errScreenCap : Str := "[Error with screen capture]".toList

/-- Error literal `[Error with memory retrieval]`. -/
def errMemory : Str := "[Error with memory retrieval]".toList

/-- Error literal `[Error: Invalid image data]`. -/
def errInvalidImage : Str := "[Error: Invalid image data]".toList

/-- Error literal `[Error capturing screen]`. -/
def errCapturingScreen : Str := "[Error capturing screen]".toList

/-- JavaScript truthiness of an optional string (`null`/`undefined` and the
empty string are falsy). -/
def truthyStr : Option Str → Bool
  | none => false
  | some s => !s.isEmpty

/-- The SCREEN_OCR resolver (lines 596-620 of the source).  Inside its own
`try`: start capture, throw on a falsy stream, run OCR; on `success && text`
return the text, else the OCR error literal.  Every thrown error (a provider
throw or the explicit falsy-stream throw) lands in the resolver's `catch`,
which returns the screen capture error literal; the first three branches
below are exactly those caught paths. -/
def screenOcrHandler (env : Env) : ProcessorFunction := fun _ _ _ =>
  Except.ok <|
    match env.startScreenCapture with
    | Except.error _ => { replacementText := some errScreenCap, images := none }
    | Except.ok none => { replacementText := some errScreenCap, images := none }
    | Except.ok (some _) =>
      match env.captureFrameAndOCR with
      | Except.error _ => { replacementText := some errScreenCap, images := none }
      | Except.ok ocrResult =>
        if ocrResult.1 && truthyStr ocrResult.2 then
          { replacementText := ocrResult.2, images := none }
        else
          { replacementText := some errOcr, images := none }

/-- The MEMORY resolver (lines 626-636): fetch the referenced agent's memory
(`match[1]`) and return it as the replacement; a thrown error is caught and
becomes the memory error literal. -/
def memoryHandler (env : Env) : ProcessorFunction := fun _ _ m =>
  Except.ok <|
    match env.getAgentMemory (m.2.getD []) with
    | .ok mem => { replacementText := some mem, images := none }
    | .error _ => { replacementText := some errMemory, images := none }

/-- Characters matched by the class `[A-Za-z0-9+/=]` of the base64 validation
regex. -/
def isB64Char (c : Char) : Bool :=
  (('A' ≤ c && c ≤ 'Z') || ('a' ≤ c && c ≤ 'z') || ('0' ≤ c && c ≤ '9')
    || c = '+' || c = '/' || c = '=')

/-- The test `/^[A-Za-z0-9+/=]+$/.test s`: non-empty and composed entirely of
base64 characters. -/
def validB64 (s : Str) : Bool := !s.isEmpty && s.all isB64Char

/-- The SCREEN_64 resolver (lines 641-679).  Inside its own `try`: start
capture, throw on a falsy stream, capture a still image; on a truthy payload
validate it as base64 and return an empty replacement plus the single image,
or the invalid-data literal; on a falsy payload (null or empty string) return
the capture error literal.  Every thrown error lands in the resolver's
`catch`, which returns the screen capture error literal; the first three
branches below are exactly those caught paths. -/
def screen64Handler (env : Env) : ProcessorFunction := fun _ _ _ =>
  Except.ok <|
    match env.startScreenCapture with
    | Except.error _ => { replacementText := some errScreenCap, images := none }
    | Except.ok none => { replacementText := some errScreenCap, images := none }
    | Except.ok (some _) =>
      match env.captureScreenImage with
      | Except.error _ => { replacementText := some errScreenCap, images := none }
      | Except.ok base64Image =>
        if truthyStr base64Image then
          if !(validB64 (base64Image.getD [])) then
            { replacementText := some errInvalidImage, images := none }
          else
            { replacementText := some [], images := some [base64Image.getD []] }
        else
          { replacementText := some errCapturingScreen, images := none }

/-- The processor registry, in `Object.entries` (insertion) order:
SCREEN_OCR, MEMORY, SCREEN_64. -/
def processorsList (env : Env) : List Processor :=
  [ { pat := Pat.lit ocrTok, handler := screenOcrHandler env },
    { pat := Pat.memory, handler := memoryHandler env },
    { pat := Pat.lit s64Tok, handler := screen64Handler env } ]

/-- Image accumulation step of the loop body: images are appended only when
the outcome's `images` field is defined and non-empty. -/
def imgAcc (imgs : List Str) : Option (List Str) → List Str
  | some is => if is.isEmpty then imgs else imgs ++ is
  | none => imgs

/-- The `while ((match = processor.regex.exec(modifiedPrompt)) !== null)` loop
for one processor, with explicit fuel.  State: current prompt, `lastIndex`,
accumulated images.  `none`: the loop did not finish within the fuel;
`some (.error e)`: a resolver threw and the exception escapes to the outer
`try`; `some (.ok (prompt, imgs))`: normal exit.  After a defined
`replacementText` the placeholder is replaced (`jsReplace`) and `lastIndex`
is reset to `0`; otherwise `lastIndex` stays past the match. -/
def runProc (proc : Processor) (agentId : Str) :
    Nat → Str → Nat → List Str → Option (Except Str (Str × List Str))
  | 0, _, _, _ => none
  | fuel + 1, prompt, lastIdx, imgs =>
    match execPat proc.pat prompt lastIdx with
    | none => some (Except.ok (prompt, imgs))
    | some (pos, matched, cap) =>
      match proc.handler agentId prompt (matched, cap) with
      | Except.error e => some (Except.error e)
      | Except.ok o =>
        match o.replacementText with
        | some r =>
            runProc proc agentId fuel (jsReplace matched r prompt) 0
              (imgAcc imgs o.images)
        | none =>
            runProc proc agentId fuel prompt (pos + matched.length)
              (imgAcc imgs o.images)

/-- The `for (const [_, processor] of Object.entries(processors))` loop:
drain each processor in registry order, threading prompt and images. -/
def runProcs (agentId : Str) (fuel : Nat) :
    List Processor → Str → List Str → Option (Except Str (Str × List Str))
  | [], prompt, imgs => some (Except.ok (prompt, imgs))
  | proc :: ps, prompt, imgs =>
    match runProc proc agentId fuel prompt 0 imgs with
    | none => none
    | some (Except.error e) => some (Except.error e)
    | some (Except.ok (prompt2, imgs2)) => runProcs agentId fuel ps prompt2 imgs2

/-- `preProcess` over an arbitrary processor list: the whole pass runs inside
a `try`; an exception escaping a resolver reaches the outer `catch`, which
returns `{ modifiedPrompt: systemPrompt }` — the original template with the
`images` field absent. -/
def preProcessWith (procs : List Processor) (fuel : Nat)
    (agentId systemPrompt : Str) : Option PreProcessorResult :=
  match runProcs agentId fuel procs systemPrompt [] with
  | none => none
  | some (Except.ok (p, imgs)) => some { modifiedPrompt := p, images := some imgs }
  | some (Except.error _) => some { modifiedPrompt := systemPrompt, images := none }

/-- The pre-processor with the actual registry. -/
def preProcess (env : Env) (fuel : Nat) (agentId systemPrompt : Str) :
    Option PreProcessorResult :=
  preProcessWith (processorsList env) fuel agentId systemPrompt

/-- A string without any dollar character. -/
def dollarFree (s : Str) : Bool := s.all (fun c => !(c == '$'))

/-- A string without any of the dollar escape sequences recognized by
`getSubstitution` (no occurrence of a dollar that is directly followed by a
dollar, an ampersand, a backquote, or a single quote). -/
def noDollarEscape : Str → Bool
  | [] => true
  | [_] => true
  | c :: d :: rest =>
    !(c == '$' && (d == '$' || d == '&' || d == bqChar || d == sqChar))
      && noDollarEscape (d :: rest)

/-- `joinTok tok s0 [s1, …, sn] = s0 ++ tok ++ s1 ++ tok ++ … ++ tok ++ sn`:
a template with `n` occurrences of the token, separated by the segments. -/
def joinTok (tok : Str) (s0 : Str) : List Str → Str
  | [] => s0
  | s :: ss => s0 ++ tok ++ joinTok tok s ss

/-- A test processor whose resolver always succeeds with a fixed
replacement. -/
def constProc (tok r : Str) : Processor :=
  { pat := Pat.lit tok, handler := fun _ _ _ =>
      Except.ok { replacementText := some r, images := none } }

/-- A test processor whose resolver throws, simulating an exception escaping
the per-resolver wrappers (an engine-mechanics fault). -/
def throwProc (tok e : Str) : Processor :=
  { pat := Pat.lit tok, handler := fun _ _ _ => Except.error e }

/-- A base environment in which every provider throws. -/
def envBase : Env :=
  { startScreenCapture := Except.error "na".toList,
    captureFrameAndOCRSuccess := false,
    captureFrameAndOCRText := none,
    captureFrameAndOCRThrows := some "na".toList,
    captureScreenImage := Except.error "na".toList,
    getAgentMemory := fun _ => Except.error "na".toList }

/-- Environment whose memory store returns `mem` for every agent id. -/
def envMem (mem : Str) : Env :=
  { envBase with getAgentMemory := fun _ => Except.ok mem }

/-- Environment whose OCR provider succeeds with text `t`. -/
def envOcr (t : Str) : Env :=
  { envBase with
      startScreenCapture := Except.ok (some ()),
      captureFrameAndOCRSuccess := true,
      captureFrameAndOCRText := some t,
      captureFrameAndOCRThrows := none }

/-- Environment whose screen-image provider returns `img`. -/
def envS64 (img : Str) : Env :=
  { envBase with
      startScreenCapture := Except.ok (some ()),
      captureScreenImage := Except.ok (some img) }

/-- Environment whose screen-image provider completes but returns no image. -/
def envS64None : Env :=
  { envBase with
      startScreenCapture := Except.ok (some ()),
      captureScreenImage := Except.ok none }

theorem leadsWith_refl_append (tok r : Str) : leadsWith tok (tok ++ r) = true := by
  induction tok with
  | nil => rfl
  | cons a tk ih => simp [leadsWith, ih]

theorem leadsWith_ex {tok s : Str} (h : leadsWith tok s = true) :
    ∃ r, s = tok ++ r := by
  induction tok generalizing s with
  | nil => exact ⟨s, rfl⟩
  | cons a tk ih =>
    cases s with
    | nil => simp [leadsWith] at h
    | cons b s2 =>
      rw [leadsWith, Bool.and_eq_true, beq_iff_eq] at h
      obtain ⟨r, hr⟩ := ih h.2
      exact ⟨r, by simp [h.1, hr]⟩

theorem leadsWith_append_left {a b u : Str} (h : leadsWith (a ++ b) u = true) :
    leadsWith a u = true := by
  induction a generalizing u with
  | nil => rfl
  | cons x xs ih =>
    cases u with
    | nil => simp [leadsWith] at h
    | cons y u2 =>
      rw [List.cons_append, leadsWith, Bool.and_eq_true] at h
      rw [leadsWith, Bool.and_eq_true]
      exact ⟨h.1, ih h.2⟩

theorem leadsWith_append_drop {a b u : Str} (h : leadsWith (a ++ b) u = true) :
    leadsWith b (u.drop a.length) = true := by
  induction a generalizing u with
  | nil => simpa using h
  | cons x xs ih =>
    cases u with
    | nil => simp [leadsWith] at h
    | cons y u2 =>
      rw [List.cons_append, leadsWith, Bool.and_eq_true] at h
      simpa using ih h.2

theorem leadsWith_takeWhile (p : Char → Bool) (l : Str) :
    leadsWith (l.takeWhile p) l = true := by
  induction l with
  | nil => rfl
  | cons c rest ih =>
    by_cases hc : p c
    · simp [List.takeWhile, hc, leadsWith, ih]
    · simp [List.takeWhile, hc, leadsWith]

/-- `findTok` returns the index of the first occurrence: the token occurs
there and at no earlier index. -/
theorem findTok_found {tok s : Str} {p : Nat} (h : findTok tok s = some p) :
    leadsWith tok (s.drop p) = true ∧ ∀ q, q < p → leadsWith tok (s.drop q) = false := by
  induction s generalizing p with
  | nil =>
    rw [findTok] at h
    split at h
    · cases h
      exact ⟨‹_›, fun q hq => absurd hq (Nat.not_lt_zero q)⟩
    · cases h
  | cons c rest ih =>
    rw [findTok] at h
    split at h
    · cases h
      exact ⟨‹_›, fun q hq => absurd hq (Nat.not_lt_zero q)⟩
    · rename_i hl
      split at h
      · rename_i n hn
        cases h
        obtain ⟨h1, h2⟩ := ih hn
        refine ⟨by simpa using h1, ?_⟩
        intro q hq
        cases q with
        | zero => simpa using Bool.eq_false_iff.mpr (fun hc => hl hc)
        | succ q2 => simpa using h2 q2 (Nat.lt_of_succ_lt_succ hq)
      · cases h

theorem getSubstitution_noEscape (m b a : Str) :
    ∀ s : Str, noDollarEscape s = true → getSubstitution m b a s = s := by
  intro s
  induction s using noDollarEscape.induct with
  | case1 => intro _; rfl
  | case2 c => intro _; rfl
  | case3 c d rest ih =>
    intro h
    rw [noDollarEscape, Bool.and_eq_true] at h
    obtain ⟨h1, h2⟩ := h
    rw [getSubstitution]
    by_cases hc : c = '$'
    · subst hc
      simp only [beq_self_eq_true, Bool.true_and, Bool.not_eq_true'] at h1
      simp only [Bool.or_eq_false_iff, beq_eq_false_iff_ne, ne_eq] at h1
      obtain ⟨⟨⟨hd1, hd2⟩, hd3⟩, hd4⟩ := h1
      rw [if_pos rfl, if_neg hd1, if_neg hd2, if_neg hd3, if_neg hd4, ih h2]
    · rw [if_neg hc, ih h2]

theorem noDollarEscape_of_dollarFree {s : Str} (h : dollarFree s = true) :
    noDollarEscape s = true := by
  induction s with
  | nil => rfl
  | cons c rest ih =>
    cases rest with
    | nil => rfl
    | cons d rest2 =>
      rw [dollarFree, List.all_cons, Bool.and_eq_true] at h
      rw [noDollarEscape, Bool.and_eq_true]
      refine ⟨?_, ih h.2⟩
      have hc : (c == '$') = false := by
        simpa using h.1
      simp [hc]

theorem leadsWith_append_of {a b u : Str} (h1 : leadsWith a u = true)
    (h2 : leadsWith b (u.drop a.length) = true) : leadsWith (a ++ b) u = true := by
  obtain ⟨r, rfl⟩ := leadsWith_ex h1
  rw [List.drop_left] at h2
  obtain ⟨r2, rfl⟩ := leadsWith_ex h2
  rw [← List.append_assoc]
  exact leadsWith_refl_append _ _

theorem tryAt_lit_some {tok u m : Str} {c : Option Str}
    (h : tryAt (Pat.lit tok) u = some (m, c)) :
    m = tok ∧ c = none ∧ leadsWith tok u = true := by
  simp only [tryAt] at h
  split at h
  · cases h
    exact ⟨rfl, rfl, ‹_›⟩
  · cases h

theorem tryAt_lit_none {tok u : Str} (h : tryAt (Pat.lit tok) u = none) :
    leadsWith tok u = false := by
  simp only [tryAt] at h
  split at h
  · cases h
  · exact Bool.eq_false_iff.mpr ‹_›

theorem tryAt_mem_some {u m : Str} {c : Option Str}
    (h : tryAt Pat.memory u = some (m, c)) :
    ∃ idr, idr = (u.drop memTok.length).takeWhile isIdChar ∧ idr ≠ [] ∧
      m = memTok ++ idr ∧ c = some idr ∧ leadsWith memTok u = true := by
  simp only [tryAt] at h
  split at h
  · split at h
    · cases h
    · cases h
      exact ⟨_, rfl, ‹_›, rfl, rfl, ‹_›⟩
  · cases h

theorem tryAt_mem_none {u : Str} (h : tryAt Pat.memory u = none) :
    leadsWith memTok u = false ∨ (u.drop memTok.length).takeWhile isIdChar = [] := by
  simp only [tryAt] at h
  split at h
  · split at h
    · right; assumption
    · cases h
  · left; exact Bool.eq_false_iff.mpr ‹_›

theorem all_takeWhile_self (p : Char → Bool) (l : Str) :
    (l.takeWhile p).all p = true := by
  induction l with
  | nil => rfl
  | cons c rest ih =>
    by_cases hc : p c
    · simp [List.takeWhile_cons, hc, ih]
    · simp [List.takeWhile_cons, hc]

theorem tryAt_mem_none_not_leads {u idr : Str} (h : tryAt Pat.memory u = none)
    (hne : idr ≠ []) (hall : idr.all isIdChar = true) :
    leadsWith (memTok ++ idr) u = false := by
  by_contra hl
  rw [Bool.not_eq_false] at hl
  have h1 := leadsWith_append_left hl
  have h2 := leadsWith_append_drop hl
  cases idr with
  | nil => exact hne rfl
  | cons x idr2 =>
    obtain ⟨r, hr⟩ := leadsWith_ex h2
    rw [List.all_cons, Bool.and_eq_true] at hall
    rcases tryAt_mem_none h with h3 | h3
    · rw [h1] at h3; cases h3
    · rw [hr, List.cons_append, List.takeWhile_cons_of_pos hall.1] at h3
      cases h3

/-- A leftmost literal-pattern match returns the token itself, no capture, and
its position is the first textual occurrence of the token. -/
theorem scanPat_lit_found {tok s : Str} {n : Nat} {m : Str} {c : Option Str}
    (h : scanPat (Pat.lit tok) s = some (n, m, c)) :
    m = tok ∧ c = none ∧ findTok tok s = some n := by
  induction s generalizing n with
  | nil =>
    rw [scanPat] at h
    rcases htry : tryAt (Pat.lit tok) [] with _ | ⟨rm, rc⟩
    · rw [htry] at h; cases h
    · rw [htry] at h
      cases h
      obtain ⟨hm, hc, hl⟩ := tryAt_lit_some htry
      exact ⟨hm, hc, by rw [findTok, if_pos hl]⟩
  | cons y rest ih =>
    rw [scanPat] at h
    rcases htry : tryAt (Pat.lit tok) (y :: rest) with _ | ⟨rm, rc⟩
    · rw [htry] at h
      rcases hscan : scanPat (Pat.lit tok) rest with _ | ⟨n2, m2, c2⟩
      · rw [hscan] at h; cases h
      · rw [hscan] at h
        cases h
        obtain ⟨hm, hc, hfind⟩ := ih hscan
        refine ⟨hm, hc, ?_⟩
        have hlf := tryAt_lit_none htry
        rw [findTok, if_neg (by simp [hlf]), hfind]
    · rw [htry] at h
      cases h
      obtain ⟨hm, hc, hl⟩ := tryAt_lit_some htry
      exact ⟨hm, hc, by rw [findTok, if_pos hl]⟩

/-- A leftmost MEMORY-pattern match has the shape `$MEMORY@` followed by a
non-empty identifier, captures the identifier, and its position is the first
textual occurrence of the matched substring. -/
theorem scanPat_mem_found {s : Str} {n : Nat} {m : Str} {c : Option Str}
    (h : scanPat Pat.memory s = some (n, m, c)) :
    ∃ idr, idr ≠ [] ∧ idr.all isIdChar = true ∧ m = memTok ++ idr ∧
      c = some idr ∧ findTok m s = some n := by
  induction s generalizing n with
  | nil =>
    rw [scanPat] at h
    rcases htry : tryAt Pat.memory [] with _ | ⟨rm, rc⟩
    · rw [htry] at h; cases h
    · rw [htry] at h
      cases h
      obtain ⟨idr, hidr, hne, hm, hc, hl⟩ := tryAt_mem_some htry
      exfalso
      have hmem : memTok = '$' :: "MEMORY@".toList := by decide
      rw [hmem] at hl
      simp [leadsWith] at hl
  | cons y rest ih =>
    rw [scanPat] at h
    rcases htry : tryAt Pat.memory (y :: rest) with _ | ⟨rm, rc⟩
    · rw [htry] at h
      rcases hscan : scanPat Pat.memory rest with _ | ⟨n2, m2, c2⟩
      · rw [hscan] at h; cases h
      · rw [hscan] at h
        cases h
        obtain ⟨idr, hne, hall, hm, hc, hfind⟩ := ih hscan
        refine ⟨idr, hne, hall, hm, hc, ?_⟩
        have hlf : leadsWith m (y :: rest) = false := by
          rw [hm]
          exact tryAt_mem_none_not_leads htry hne hall
        rw [findTok, if_neg (by simp [hlf]), hfind]
    · rw [htry] at h
      cases h
      obtain ⟨idr, hidr, hne, hm, hc, hl⟩ := tryAt_mem_some htry
      refine ⟨idr, hne, hidr ▸ all_takeWhile_self isIdChar _, hm, hc, ?_⟩
      have hlw : leadsWith m (y :: rest) = true := by
        rw [hm]
        exact leadsWith_append_of hl (hidr ▸ leadsWith_takeWhile isIdChar _)
      rw [findTok, if_pos hlw]

/-- Any match found by `exec` from cursor `0` sits at the first textual
occurrence of the matched substring: substitution by content match targets
exactly the matched span. -/
theorem execPat_findTok {pat : Pat} {s : Str} {pos : Nat} {matched : Str}
    {cap : Option Str} (h : execPat pat s 0 = some (pos, matched, cap)) :
    findTok matched s = some pos := by
  rw [execPat, List.drop_zero] at h
  rcases hscan : scanPat pat s with _ | ⟨n, m, c⟩
  · rw [hscan] at h; cases h
  · rw [hscan, Option.map_some'] at h
    cases h
    cases pat with
    | lit tok =>
      obtain ⟨hm, _, hfind⟩ := scanPat_lit_found hscan
      rw [hm, hfind]
      simp
    | memory =>
      obtain ⟨idr, _, _, _, _, hfind⟩ := scanPat_mem_found hscan
      rw [hfind]
      simp

theorem tryAt_dollar_head {pat : Pat} {tk : Str}
    (hpat : pat = Pat.lit ('$' :: tk) ∨ pat = Pat.memory)
    {y : Char} {u : Str} {r : Str × Option Str}
    (h : tryAt pat (y :: u) = some r) : y = '$' := by
  rcases r with ⟨m, c⟩
  rcases hpat with rfl | rfl
  · obtain ⟨_, _, hl⟩ := tryAt_lit_some h
    rw [leadsWith, Bool.and_eq_true, beq_iff_eq] at hl
    exact hl.1.symm
  · obtain ⟨idr, _, _, _, _, hl⟩ := tryAt_mem_some h
    have hmem : memTok = '$' :: "MEMORY@".toList := by decide
    rw [hmem, leadsWith, Bool.and_eq_true, beq_iff_eq] at hl
    exact hl.1.symm

/-- A registered pattern (all of which begin with a dollar) has no match in a
dollar-free string. -/
theorem scanPat_none_of_dollarFree {pat : Pat} {tk : Str}
    (hpat : pat = Pat.lit ('$' :: tk) ∨ pat = Pat.memory) :
    ∀ {s : Str}, dollarFree s = true → scanPat pat s = none := by
  intro s
  induction s with
  | nil =>
    intro _
    rw [scanPat]
    rcases htry : tryAt pat [] with _ | ⟨rm, rc⟩
    · rfl
    · exfalso
      rcases hpat with rfl | rfl
      · obtain ⟨_, _, hl⟩ := tryAt_lit_some htry
        simp [leadsWith] at hl
      · obtain ⟨idr, _, _, _, _, hl⟩ := tryAt_mem_some htry
        have hmem : memTok = '$' :: "MEMORY@".toList := by decide
        rw [hmem] at hl
        simp [leadsWith] at hl
  | cons y rest ih =>
    intro hs
    rw [dollarFree, List.all_cons, Bool.and_eq_true] at hs
    rw [scanPat]
    rcases htry : tryAt pat (y :: rest) with _ | r
    · rw [ih hs.2]
    · exfalso
      have hy := tryAt_dollar_head hpat htry
      rw [hy] at hs
      simp at hs

theorem findTok_canonical {tk s0 r : Str} (hs0 : dollarFree s0 = true) :
    findTok ('$' :: tk) (s0 ++ ('$' :: tk) ++ r) = some s0.length := by
  induction s0 with
  | nil =>
    have hsplit : ([] : Str) ++ ('$' :: tk) ++ r = '$' :: (tk ++ r) := by simp
    have hlw : leadsWith ('$' :: tk) ('$' :: (tk ++ r)) = true := by
      rw [← List.cons_append]
      exact leadsWith_refl_append _ _
    rw [hsplit, findTok, if_pos hlw]
    rfl
  | cons y s0t ih =>
    rw [dollarFree, List.all_cons, Bool.and_eq_true] at hs0
    have hy : (y == '$') = false := by simpa using hs0.1
    have hsplit : (y :: s0t) ++ ('$' :: tk) ++ r = y :: (s0t ++ ('$' :: tk) ++ r) := by
      simp
    have hneg : ¬(leadsWith ('$' :: tk) (y :: (s0t ++ ('$' :: tk) ++ r)) = true) := by
      intro hcontra
      rw [leadsWith, Bool.and_eq_true, beq_iff_eq] at hcontra
      rw [beq_eq_false_iff_ne] at hy
      exact hy hcontra.1.symm
    rw [hsplit, findTok, if_neg hneg, ih hs0.2]
    simp

theorem scanPat_lit_canonical {tk s0 r : Str} (hs0 : dollarFree s0 = true) :
    scanPat (Pat.lit ('$' :: tk)) (s0 ++ ('$' :: tk) ++ r)
      = some (s0.length, '$' :: tk, none) := by
  induction s0 with
  | nil =>
    have hsplit : ([] : Str) ++ ('$' :: tk) ++ r = '$' :: (tk ++ r) := by simp
    have htry : tryAt (Pat.lit ('$' :: tk)) ('$' :: (tk ++ r))
        = some ('$' :: tk, none) := by
      simp only [tryAt]
      rw [if_pos]
      rw [← List.cons_append]
      exact leadsWith_refl_append _ _
    rw [hsplit, scanPat, htry]
    rfl
  | cons y s0t ih =>
    rw [dollarFree, List.all_cons, Bool.and_eq_true] at hs0
    have hy : (y == '$') = false := by simpa using hs0.1
    have hsplit : (y :: s0t) ++ ('$' :: tk) ++ r = y :: (s0t ++ ('$' :: tk) ++ r) := by
      simp
    have htry : tryAt (Pat.lit ('$' :: tk)) (y :: (s0t ++ ('$' :: tk) ++ r))
        = none := by
      simp only [tryAt]
      rw [if_neg]
      intro hcontra
      rw [leadsWith, Bool.and_eq_true, beq_iff_eq] at hcontra
      rw [beq_eq_false_iff_ne] at hy
      exact hy hcontra.1.symm
    rw [hsplit, scanPat, htry, ih hs0.2]
    rfl

theorem execPat_lit_canonical {tk s0 r : Str} (hs0 : dollarFree s0 = true) :
    execPat (Pat.lit ('$' :: tk)) (s0 ++ ('$' :: tk) ++ r) 0
      = some (s0.length, '$' :: tk, none) := by
  rw [execPat, List.drop_zero, scanPat_lit_canonical hs0]
  simp

theorem execPat_none_of_dollarFree {pat : Pat} {tk : Str}
    (hpat : pat = Pat.lit ('$' :: tk) ∨ pat = Pat.memory) {s : Str}
    (hs : dollarFree s = true) : execPat pat s 0 = none := by
  rw [execPat, List.drop_zero, scanPat_none_of_dollarFree hpat hs]
  rfl

/-- `jsReplace` at a known first occurrence, with an escape-free replacement:
the occurrence is replaced by the replacement text verbatim. -/
theorem jsReplace_eq_of_findTok {tok repl s : Str} {p : Nat}
    (hfind : findTok tok s = some p) (hrepl : noDollarEscape repl = true) :
    jsReplace tok repl s = s.take p ++ repl ++ s.drop (p + tok.length) := by
  simp only [jsReplace, hfind]
  rw [getSubstitution_noEscape _ _ _ _ hrepl]

theorem jsReplace_canonical {tk s0 r T : Str} (hs0 : dollarFree s0 = true)
    (hT : noDollarEscape T = true) :
    jsReplace ('$' :: tk) T (s0 ++ ('$' :: tk) ++ r) = s0 ++ T ++ r := by
  rw [jsReplace_eq_of_findTok (findTok_canonical hs0) hT]
  have h1 : (s0 ++ ('$' :: tk) ++ r).take s0.length = s0 := by
    rw [List.append_assoc]
    exact List.take_left s0 _
  have h2 : (s0 ++ ('$' :: tk) ++ r).drop (s0.length + ('$' :: tk).length) = r := by
    rw [← List.length_append]
    exact List.drop_left _ r
  rw [h1, h2]

/-- Loop exit: when the pattern no longer matches, the prompt and the images
accumulated so far are returned unchanged. -/
theorem runProc_exit {proc : Processor} {aid prompt : Str} {imgs : List Str}
    {fuel : Nat} (h : execPat proc.pat prompt 0 = none) :
    runProc proc aid (fuel + 1) prompt 0 imgs = some (Except.ok (prompt, imgs)) := by
  simp only [runProc, h]

/-- Loop step with a defined `replacementText`: the matched text is replaced
(by content, via `jsReplace`) and the scan cursor is reset to `0`. -/
theorem runProc_step_replace {proc : Processor} {aid prompt : Str}
    {imgs : List Str} {fuel lastIdx pos : Nat} {matched : Str}
    {cap : Option Str} {o : Outcome} {r : Str}
    (hexec : execPat proc.pat prompt lastIdx = some (pos, matched, cap))
    (hhandler : proc.handler aid prompt (matched, cap) = Except.ok o)
    (hrepl : o.replacementText = some r) :
    runProc proc aid (fuel + 1) prompt lastIdx imgs
      = runProc proc aid fuel (jsReplace matched r prompt) 0 (imgAcc imgs o.images) := by
  simp only [runProc, hexec, hhandler, hrepl]

/-- Loop step with a throwing resolver: the exception escapes the loop. -/
theorem runProc_step_throw {proc : Processor} {aid prompt : Str}
    {imgs : List Str} {fuel lastIdx pos : Nat} {matched : Str}
    {cap : Option Str} {e : Str}
    (hexec : execPat proc.pat prompt lastIdx = some (pos, matched, cap))
    (hhandler : proc.handler aid prompt (matched, cap) = Except.error e) :
    runProc proc aid (fuel + 1) prompt lastIdx imgs = some (Except.error e) := by
  simp only [runProc, hexec, hhandler]

/-- If every resolver outcome carries a `replacementText` then a normally
terminating drain leaves no occurrence of the pattern in the final text. -/
theorem runProc_final_no_match {proc : Processor} {aid : Str}
    (htot : ∀ p m o, proc.handler aid p m = Except.ok o →
      o.replacementText.isSome = true) :
    ∀ {fuel : Nat} {prompt final : Str} {imgs fimgs : List Str},
      runProc proc aid fuel prompt 0 imgs = some (Except.ok (final, fimgs)) →
      execPat proc.pat final 0 = none := by
  intro fuel
  induction fuel with
  | zero =>
    intro prompt final imgs fimgs h
    rw [runProc] at h
    cases h
  | succ fuel ih =>
    intro prompt final imgs fimgs h
    rw [runProc] at h
    rcases hexec : execPat proc.pat prompt 0 with _ | ⟨pos, matched, cap⟩
    · simp only [hexec, Option.some.injEq, Except.ok.injEq, Prod.mk.injEq] at h
      rw [← h.1]
      exact hexec
    · simp only [hexec] at h
      rcases hh : proc.handler aid prompt (matched, cap) with e | o
      · simp only [hh] at h
        cases h
      · simp only [hh] at h
        rcases hr : o.replacementText with _ | r
        · have hsome := htot _ _ _ hh
          rw [hr] at hsome
          cases hsome
        · simp only [hr] at h
          exact ih h

/-- A drain whose resolver never throws cannot produce an escaped
exception. -/
theorem runProc_noThrow {proc : Processor} {aid : Str}
    (htot : ∀ p m, ∃ o, proc.handler aid p m = Except.ok o) :
    ∀ {fuel : Nat} {prompt : Str} {li : Nat} {imgs : List Str} {e : Str},
      runProc proc aid fuel prompt li imgs ≠ some (Except.error e) := by
  intro fuel
  induction fuel with
  | zero =>
    intro prompt li imgs e h
    rw [runProc] at h
    cases h
  | succ fuel ih =>
    intro prompt li imgs e h
    rw [runProc] at h
    rcases hexec : execPat proc.pat prompt li with _ | ⟨pos, matched, cap⟩
    · simp only [hexec] at h
      cases h
    · simp only [hexec] at h
      obtain ⟨o, ho⟩ := htot prompt (matched, cap)
      simp only [ho] at h
      rcases hr : o.replacementText with _ | r
      · simp only [hr] at h
        exact ih h
      · simp only [hr] at h
        exact ih h

/-- A whole pass whose resolvers never throw cannot produce an escaped
exception. -/
theorem runProcs_noThrow {aid : Str} {fuel : Nat} :
    ∀ {procs : List Processor},
      (∀ proc ∈ procs, ∀ p m, ∃ o, proc.handler aid p m = Except.ok o) →
      ∀ {prompt : Str} {imgs : List Str} {e : Str},
        runProcs aid fuel procs prompt imgs ≠ some (Except.error e) := by
  intro procs
  induction procs with
  | nil =>
    intro _ prompt imgs e h
    rw [runProcs] at h
    cases h
  | cons proc ps ih =>
    intro htot prompt imgs e h
    rw [runProcs] at h
    rcases hrun : runProc proc aid fuel prompt 0 imgs with _ | exc
    · simp only [hrun] at h
      cases h
    · rcases exc with e2 | ⟨p2, i2⟩
      · exact runProc_noThrow (htot proc (by simp)) hrun
      · simp only [hrun] at h
        exact ih (fun q hq => htot q (by simp [hq])) h

/-- All three registered resolvers catch their own exceptions: they always
return an `ok` outcome. -/
theorem processors_handlers_ok (env : Env) :
    ∀ proc ∈ processorsList env, ∀ aid p m,
      ∃ o, proc.handler aid p m = Except.ok o := by
  intro proc hproc aid p m
  rw [processorsList] at hproc
  simp at hproc
  rcases hproc with rfl | rfl | rfl
  · exact ⟨_, rfl⟩
  · exact ⟨_, rfl⟩
  · exact ⟨_, rfl⟩

theorem execPat_lit_shape {tok s : Str} {i pos : Nat} {matched : Str}
    {cap : Option Str}
    (h : execPat (Pat.lit tok) s i = some (pos, matched, cap)) :
    matched = tok ∧ cap = none := by
  rw [execPat] at h
  rcases hscan : scanPat (Pat.lit tok) (s.drop i) with _ | ⟨n, m, c⟩
  · rw [hscan] at h; cases h
  · rw [hscan, Option.map_some'] at h
    cases h
    obtain ⟨hm, hc, _⟩ := scanPat_lit_found hscan
    exact ⟨hm, hc⟩

theorem dollarFree_append {a b : Str} :
    dollarFree (a ++ b) = (dollarFree a && dollarFree b) := by
  simp [dollarFree, List.all_append]

theorem joinTok_absorb (tok a b s : Str) (ss : List Str) :
    a ++ b ++ joinTok tok s ss = joinTok tok (a ++ b ++ s) ss := by
  cases ss with
  | nil => rfl
  | cons y ys =>
    rw [joinTok, joinTok]
    simp [List.append_assoc]

theorem dollarFree_joinTok {T s0 : Str} {ss : List Str}
    (hT : dollarFree T = true) (hsegs : ∀ s ∈ s0 :: ss, dollarFree s = true) :
    dollarFree (joinTok T s0 ss) = true := by
  induction ss generalizing s0 with
  | nil => exact hsegs s0 (by simp)
  | cons y ys ih =>
    rw [joinTok, dollarFree_append, dollarFree_append, Bool.and_eq_true,
      Bool.and_eq_true]
    refine ⟨⟨hsegs s0 (by simp), hT⟩, ?_⟩
    exact ih (fun s hs => hsegs s (by simp at hs ⊢; tauto))

/-- When capture starts and OCR succeeds with non-empty text `T`, the OCR
resolver always returns `T` as the replacement and no images. -/
theorem screenOcr_handler_ok_text {env : Env} {T : Str} (aid : Str)
    (hstart : env.startScreenCapture = Except.ok (some ()))
    (hocr : env.captureFrameAndOCR = Except.ok (true, some T)) (hTne : T ≠ []) :
    ∀ p m, screenOcrHandler env aid p m
      = Except.ok { replacementText := some T, images := none } := by
  intro p m
  have ht : truthyStr (some T) = true := by
    cases T with
    | nil => exact absurd rfl hTne
    | cons c t => rfl
  simp [screenOcrHandler, hstart, hocr, ht]

/-- Draining the SCREEN_OCR processor over a template of segments interleaved
with the marker, when every OCR resolution succeeds with dollar-free non-empty
text `T` and every segment is dollar-free, replaces each marker occurrence by
`T` exactly once. -/
theorem runProc_ocr_drain (env : Env) (aid T : Str)
    (hstart : env.startScreenCapture = Except.ok (some ()))
    (hocr : env.captureFrameAndOCR = Except.ok (true, some T))
    (hT : dollarFree T = true) (hTne : T ≠ []) :
    ∀ (ss : List Str) (s0 : Str) (imgs : List Str) (fuel : Nat),
      ss.length + 1 ≤ fuel →
      (∀ s ∈ s0 :: ss, dollarFree s = true) →
      runProc { pat := Pat.lit ocrTok, handler := screenOcrHandler env } aid fuel
          (joinTok ocrTok s0 ss) 0 imgs
        = some (Except.ok (joinTok T s0 ss, imgs)) := by
  have hocrTok : ocrTok = '$' :: "SCREEN_OCR".toList := by decide
  have hh := screenOcr_handler_ok_text aid hstart hocr hTne
  intro ss
  induction ss with
  | nil =>
    intro s0 imgs fuel hfuel hsegs
    rcases fuel with _ | f
    · simp at hfuel
    · have hs0 : dollarFree s0 = true := hsegs s0 (by simp)
      have hnone : execPat (Pat.lit ocrTok) s0 0 = none :=
        execPat_none_of_dollarFree (Or.inl (by rw [hocrTok])) hs0
      exact runProc_exit hnone
  | cons y ys ih =>
    intro s0 imgs fuel hfuel hsegs
    rcases fuel with _ | f
    · simp at hfuel
    · have hs0 : dollarFree s0 = true := hsegs s0 (by simp)
      have hy : dollarFree y = true := hsegs y (by simp)
      have hexec : execPat (Pat.lit ocrTok) (joinTok ocrTok s0 (y :: ys)) 0
          = some (s0.length, ocrTok, none) := by
        rw [joinTok, hocrTok]
        exact execPat_lit_canonical hs0
      have hstep := @runProc_step_replace
        { pat := Pat.lit ocrTok, handler := screenOcrHandler env } aid
        (joinTok ocrTok s0 (y :: ys)) imgs f 0 s0.length ocrTok none
        { replacementText := some T, images := none } T hexec
        (hh (joinTok ocrTok s0 (y :: ys)) (ocrTok, none)) rfl
      rw [hstep]
      have hrepl : jsReplace ocrTok T (joinTok ocrTok s0 (y :: ys))
          = s0 ++ T ++ joinTok ocrTok y ys := by
        rw [joinTok, hocrTok]
        exact jsReplace_canonical hs0 (noDollarEscape_of_dollarFree hT)
      rw [hrepl, joinTok_absorb]
      have hf2 : ys.length + 1 ≤ f := by
        simp at hfuel
        omega
      have hsegs2 : ∀ s ∈ (s0 ++ T ++ y) :: ys, dollarFree s = true := by
        intro s hs
        rcases List.mem_cons.mp hs with rfl | hs2
        · rw [dollarFree_append, dollarFree_append]
          simp [hs0, hT, hy]
        · exact hsegs s (by simp [hs2])
      have hihyp := ih (s0 ++ T ++ y) imgs f hf2 hsegs2
      simp only [imgAcc]
      rw [hihyp, ← joinTok_absorb T s0 T y ys, joinTok]

/-- C1: `preProcess` never raises to its caller — whenever the pass inside
the `try` terminates, a result value is returned — and when an exception
escapes the per-resolver wrappers (an engine-mechanics fault), the returned
result carries the original input template unaltered, with every partial
substitution already made and every collected attachment discarded. -/
theorem preProcess_never_raises_full_rollback
    (procs : List Processor) (fuel : Nat) (aid tmpl : Str) :
    ((runProcs aid fuel procs tmpl []).isSome = true →
      (preProcessWith procs fuel aid tmpl).isSome = true)
    ∧ (∀ e, runProcs aid fuel procs tmpl [] = some (Except.error e) →
      preProcessWith procs fuel aid tmpl
        = some { modifiedPrompt := tmpl, images := none }) := by
  constructor
  · intro h
    rcases hrun : runProcs aid fuel procs tmpl [] with _ | exc
    · rw [hrun] at h
      simp at h
    · rcases exc with e | ⟨pr, im⟩ <;> simp [preProcessWith, hrun]
  · intro e he
    simp [preProcessWith, he]

/-- Witness for C1: the first directive has already substituted when the
second throws; the whole result rolls back to the original template and the
images field is absent. -/
theorem preProcess_never_raises_full_rollback_witness :
    runProcs [] 9 [constProc "$A".toList "ok".toList,
        throwProc "$B".toList "boom".toList] "$A and $B".toList []
      = some (Except.error "boom".toList)
    ∧ preProcessWith [constProc "$A".toList "ok".toList,
        throwProc "$B".toList "boom".toList] 9 [] "$A and $B".toList
      = some { modifiedPrompt := "$A and $B".toList, images := none } :=
  ⟨by rfl,
   (preProcess_never_raises_full_rollback
      [constProc "$A".toList "ok".toList, throwProc "$B".toList "boom".toList]
      9 [] "$A and $B".toList).2 "boom".toList (by rfl)⟩

/-- C8: a template containing zero occurrences of any registered directive
pattern is returned unchanged with an empty attachment list; consequently
`preProcess` is a no-op on an already-fully-expanded (marker-free) prompt. -/
theorem preProcess_no_markers_identity (env : Env) (fuel : Nat) (aid tmpl : Str)
    (h1 : execPat (Pat.lit ocrTok) tmpl 0 = none)
    (h2 : execPat Pat.memory tmpl 0 = none)
    (h3 : execPat (Pat.lit s64Tok) tmpl 0 = none) :
    preProcess env (fuel + 1) aid tmpl
      = some { modifiedPrompt := tmpl, images := some [] } := by
  have e1 := @runProc_exit
    { pat := Pat.lit ocrTok, handler := screenOcrHandler env } aid tmpl [] fuel h1
  have e2 := @runProc_exit
    { pat := Pat.memory, handler := memoryHandler env } aid tmpl [] fuel h2
  have e3 := @runProc_exit
    { pat := Pat.lit s64Tok, handler := screen64Handler env } aid tmpl [] fuel h3
  simp only [preProcess, preProcessWith, processorsList, runProcs, e1, e2, e3]

/-- Witness for C8 on a concrete marker-free prompt. -/
theorem preProcess_no_markers_identity_witness :
    preProcess envBase 1 "a1".toList "hello world MEMORY SCREEN".toList
      = some { modifiedPrompt := "hello world MEMORY SCREEN".toList,
               images := some [] } :=
  preProcess_no_markers_identity envBase 0 "a1".toList
    "hello world MEMORY SCREEN".toList (by rfl) (by rfl) (by rfl)

/-- C6: a SCREEN_64 occurrence with a started capture, a captured payload and
valid base64: the matched marker (the `$SCREEN_64` literal) is replaced by the
empty string and exactly one entry equal to the captured base64 string is
appended to the accumulated images. -/
theorem screen64_success_empty_replacement_one_image (env : Env)
    (aid prompt : Str) (imgs : List Str) (fuel pos : Nat) (matched : Str)
    (cap : Option Str) (img : Str)
    (hexec : execPat (Pat.lit s64Tok) prompt 0 = some (pos, matched, cap))
    (hstart : env.startScreenCapture = Except.ok (some ()))
    (hcap : env.captureScreenImage = Except.ok (some img))
    (hvalid : validB64 img = true) :
    matched = s64Tok
    ∧ runProc { pat := Pat.lit s64Tok, handler := screen64Handler env } aid
          (fuel + 1) prompt 0 imgs
      = runProc { pat := Pat.lit s64Tok, handler := screen64Handler env } aid
          fuel (prompt.take pos ++ [] ++ prompt.drop (pos + matched.length)) 0
          (imgs ++ [img]) := by
  have hshape := execPat_lit_shape hexec
  have hv := hvalid
  rw [validB64, Bool.and_eq_true] at hv
  have htr : truthyStr (some img) = true := hv.1
  have hh : screen64Handler env aid prompt (matched, cap)
      = Except.ok { replacementText := some [], images := some [img] } := by
    simp [screen64Handler, hstart, hcap, htr, hvalid]
  have hfind := execPat_findTok hexec
  have hstep := @runProc_step_replace
    { pat := Pat.lit s64Tok, handler := screen64Handler env } aid prompt imgs
    fuel 0 pos matched cap { replacementText := some [], images := some [img] }
    [] hexec hh rfl
  refine ⟨hshape.1, ?_⟩
  rw [hstep, jsReplace_eq_of_findTok hfind (by rfl)]
  simp [imgAcc]

/-- Witness for C6 at a concrete prompt and captured image. -/
theorem screen64_success_empty_replacement_one_image_witness :
    runProc { pat := Pat.lit s64Tok, handler := screen64Handler (envS64 "QUJD".toList) }
        [] 2 "x$SCREEN_64y".toList 0 []
      = runProc { pat := Pat.lit s64Tok, handler := screen64Handler (envS64 "QUJD".toList) }
          [] 1 ("x$SCREEN_64y".toList.take 1 ++ []
            ++ "x$SCREEN_64y".toList.drop (1 + s64Tok.length)) 0
          ([] ++ ["QUJD".toList]) :=
  (screen64_success_empty_replacement_one_image (envS64 "QUJD".toList) []
    "x$SCREEN_64y".toList [] 1 1 s64Tok none "QUJD".toList (by rfl) rfl rfl
    (by decide)).2

/-- C7: a SCREEN_64 occurrence where the capture provider completes but
returns no image: the resolver outcome is the literal
`[Error capturing screen]` with no images, the marker is replaced by that
literal, and the accumulated image list is unchanged. -/
theorem screen64_capture_failure_literal_no_image (env : Env)
    (aid prompt : Str) (imgs : List Str) (fuel pos : Nat) (matched : Str)
    (cap : Option Str)
    (hexec : execPat (Pat.lit s64Tok) prompt 0 = some (pos, matched, cap))
    (hstart : env.startScreenCapture = Except.ok (some ()))
    (hcap : env.captureScreenImage = Except.ok none) :
    screen64Handler env aid prompt (matched, cap)
      = Except.ok { replacementText := some errCapturingScreen, images := none }
    ∧ runProc { pat := Pat.lit s64Tok, handler := screen64Handler env } aid
          (fuel + 1) prompt 0 imgs
      = runProc { pat := Pat.lit s64Tok, handler := screen64Handler env } aid
          fuel (prompt.take pos ++ errCapturingScreen
            ++ prompt.drop (pos + matched.length)) 0 imgs := by
  have hh : screen64Handler env aid prompt (matched, cap)
      = Except.ok { replacementText := some errCapturingScreen, images := none } := by
    simp [screen64Handler, hstart, hcap, truthyStr]
  refine ⟨hh, ?_⟩
  have hfind := execPat_findTok hexec
  have hstep := @runProc_step_replace
    { pat := Pat.lit s64Tok, handler := screen64Handler env } aid prompt imgs
    fuel 0 pos matched cap
    { replacementText := some errCapturingScreen, images := none }
    errCapturingScreen hexec hh rfl
  rw [hstep, jsReplace_eq_of_findTok hfind (by decide)]
  rfl

/-- Witness for C7 at a concrete prompt with a failing capture. -/
theorem screen64_capture_failure_literal_no_image_witness :
    screen64Handler envS64None [] "$SCREEN_64".toList (s64Tok, none)
      = Except.ok { replacementText := some errCapturingScreen, images := none } :=
  (screen64_capture_failure_literal_no_image envS64None [] "$SCREEN_64".toList
    [] 0 0 s64Tok none (by rfl) rfl rfl).1

/-- C9: in the SCREEN_64 resolver, every thrown step — a throwing
`startScreenCapture`, the explicit throw on a falsy capture handle, or a
throwing `captureScreenImage` — is caught and yields exactly
`[Error with screen capture]`; the literal `[Error capturing screen]` is
produced only when `captureScreenImage` completes without throwing and
returns a falsy value (null or the empty string). -/
theorem screen64_throw_vs_falsy_literals (env : Env) (aid p : Str)
    (m : Str × Option Str) :
    (∀ e, env.startScreenCapture = Except.error e →
      screen64Handler env aid p m
        = Except.ok { replacementText := some errScreenCap, images := none })
    ∧ (env.startScreenCapture = Except.ok none →
      screen64Handler env aid p m
        = Except.ok { replacementText := some errScreenCap, images := none })
    ∧ (∀ e, env.startScreenCapture = Except.ok (some ()) →
      env.captureScreenImage = Except.error e →
      screen64Handler env aid p m
        = Except.ok { replacementText := some errScreenCap, images := none })
    ∧ (∀ o, screen64Handler env aid p m = Except.ok o →
      o.replacementText = some errCapturingScreen →
      env.startScreenCapture = Except.ok (some ())
        ∧ (env.captureScreenImage = Except.ok none
          ∨ env.captureScreenImage = Except.ok (some []))) := by
  refine ⟨?_, ?_, ?_, ?_⟩
  · intro e he
    simp [screen64Handler, he]
  · intro he
    simp [screen64Handler, he]
  · intro e hs hc
    simp [screen64Handler, hs, hc]
  · intro o ho hrepl
    rcases hs : env.startScreenCapture with e | os
    · simp only [screen64Handler, hs] at ho
      cases ho
      exact absurd hrepl (by decide)
    · rcases os with _ | u
      · simp only [screen64Handler, hs] at ho
        cases ho
        exact absurd hrepl (by decide)
      · cases u
        rcases hc : env.captureScreenImage with e2 | ob
        · simp only [screen64Handler, hs, hc] at ho
          cases ho
          exact absurd hrepl (by decide)
        · rcases ob with _ | img
          · exact ⟨rfl, Or.inl rfl⟩
          · rcases img with _ | ⟨c, cs⟩
            · exact ⟨rfl, Or.inr rfl⟩
            · simp only [screen64Handler, hs, hc, truthyStr, List.isEmpty_cons,
                Bool.not_false, if_true, Option.getD_some] at ho
              rw [← Except.ok.inj ho] at hrepl
              split at hrepl
              · exact absurd hrepl (by decide)
              · exact absurd (Option.some.inj hrepl) (by decide)

/-- Witness for C9: a throwing `startScreenCapture` yields the screen capture
error literal. -/
theorem screen64_throw_vs_falsy_literals_witness :
    screen64Handler envBase [] [] (s64Tok, none)
      = Except.ok { replacementText := some errScreenCap, images := none } :=
  (screen64_throw_vs_falsy_literals envBase [] [] (s64Tok, none)).1
    "na".toList (by rfl)

/-- C10: the SCREEN_64 base64 validation accepts exactly the non-empty
strings composed entirely of characters in `[A-Za-z0-9+/=]`; a non-empty
captured string containing any other character yields
`[Error: Invalid image data]` with no attachment, and an empty captured
string is treated as a capture failure (`[Error capturing screen]`), not as
an invalid encoding. -/
theorem screen64_base64_validation (env : Env) (aid p : Str)
    (m : Str × Option Str) (img : Str)
    (hstart : env.startScreenCapture = Except.ok (some ()))
    (hcap : env.captureScreenImage = Except.ok (some img)) :
    (validB64 img = true ↔ img ≠ [] ∧ ∀ c ∈ img, isB64Char c = true)
    ∧ (img ≠ [] → img.all isB64Char = false →
      screen64Handler env aid p m
        = Except.ok { replacementText := some errInvalidImage, images := none })
    ∧ (img ≠ [] → img.all isB64Char = true →
      screen64Handler env aid p m
        = Except.ok { replacementText := some [], images := some [img] })
    ∧ (img = [] →
      screen64Handler env aid p m
        = Except.ok
          { replacementText := some errCapturingScreen, images := none }) := by
  refine ⟨?_, ?_, ?_, ?_⟩
  · rw [validB64, Bool.and_eq_true]
    constructor
    · rintro ⟨h1, h2⟩
      refine ⟨?_, ?_⟩
      · intro hnil
        subst hnil
        simp at h1
      · intro c hc
        rw [List.all_eq_true] at h2
        exact h2 c hc
    · rintro ⟨h1, h2⟩
      refine ⟨?_, ?_⟩
      · cases img with
        | nil => exact absurd rfl h1
        | cons x xs => rfl
      · rw [List.all_eq_true]
        exact h2
  · intro hne hall
    have htr : truthyStr (some img) = true := by
      cases img with
      | nil => exact absurd rfl hne
      | cons x xs => rfl
    have hv : validB64 img = false := by
      rw [validB64, hall, Bool.and_false]
    simp [screen64Handler, hstart, hcap, htr, hv]
  · intro hne hall
    have htr : truthyStr (some img) = true := by
      cases img with
      | nil => exact absurd rfl hne
      | cons x xs => rfl
    have hv : validB64 img = true := by
      rw [validB64, hall, Bool.and_true]
      cases img with
      | nil => exact absurd rfl hne
      | cons x xs => rfl
    simp [screen64Handler, hstart, hcap, htr, hv]
  · intro hnil
    subst hnil
    simp [screen64Handler, hstart, hcap, truthyStr]

/-- Witness for C10: a valid captured payload is attached and replaced by the
empty string. -/
theorem screen64_base64_validation_witness :
    screen64Handler (envS64 "QUJD".toList) [] [] (s64Tok, none)
      = Except.ok
          { replacementText := some [], images := some ["QUJD".toList] } :=
  (screen64_base64_validation (envS64 "QUJD".toList) [] [] (s64Tok, none)
    "QUJD".toList rfl rfl).2.2.1 (by decide) (by decide)

/-- Counterexample to C2 as stated: the engine does not splice the resolver's
`replacementText` itself into the working prompt; `String.replace` first
expands dollar escape sequences in it.  A resolver returning the two-character
text `$$` for the marker `$P` results in a single `$` being spliced. -/
theorem resolve_splice_verbatim_cex :
    preProcessWith [constProc "$P".toList "$$".toList] 9 [] "a$Pb".toList
      = some { modifiedPrompt := "a$b".toList, images := some [] }
    ∧ "a$b".toList ≠ "a$$b".toList :=
  ⟨by rfl, by decide⟩

/-- C2 (amended): when a resolver returns a defined `replacementText`, the
engine splices its dollar-expanded form (`jsReplace`, which replaces by
content at the first textual occurrence of the matched marker substring —
`findTok` returns that first occurrence) and resets the scan cursor to the
beginning of the working text; and when the resolver always returns a defined
`replacementText`, a drain that terminates normally does so only with zero
occurrences of its pattern left in the final working text. -/
theorem resolve_splice_first_occurrence_drain (proc : Processor) (aid : Str) :
    (∀ (fuel : Nat) (prompt : Str) (imgs : List Str) (pos : Nat)
        (matched : Str) (cap : Option Str) (o : Outcome) (r : Str),
      execPat proc.pat prompt 0 = some (pos, matched, cap) →
      proc.handler aid prompt (matched, cap) = Except.ok o →
      o.replacementText = some r →
      findTok matched prompt = some pos
        ∧ runProc proc aid (fuel + 1) prompt 0 imgs
          = runProc proc aid fuel (jsReplace matched r prompt) 0
              (imgAcc imgs o.images))
    ∧ (∀ (fuel : Nat) (prompt final : Str) (imgs fimgs : List Str),
      (∀ p m o, proc.handler aid p m = Except.ok o →
        o.replacementText.isSome = true) →
      runProc proc aid fuel prompt 0 imgs = some (Except.ok (final, fimgs)) →
      execPat proc.pat final 0 = none) := by
  constructor
  · intro fuel prompt imgs pos matched cap o r hexec hh hr
    exact ⟨execPat_findTok hexec, runProc_step_replace hexec hh hr⟩
  · intro fuel prompt final imgs fimgs htot hrun
    exact runProc_final_no_match htot hrun

/-- Witness for the amended C2 on a concrete memory directive: the splice
step and the drained final state. -/
theorem resolve_splice_first_occurrence_drain_witness :
    (findTok "$MEMORY@ab".toList "x$MEMORY@ab!".toList = some 1
      ∧ runProc
          { pat := Pat.memory, handler := memoryHandler (envMem "hi".toList) }
          [] 3 "x$MEMORY@ab!".toList 0 []
        = runProc
            { pat := Pat.memory, handler := memoryHandler (envMem "hi".toList) }
            [] 2
            (jsReplace "$MEMORY@ab".toList "hi".toList "x$MEMORY@ab!".toList)
            0 (imgAcc [] none))
    ∧ execPat Pat.memory "xhi!".toList 0 = none := by
  constructor
  · exact (resolve_splice_first_occurrence_drain
      { pat := Pat.memory, handler := memoryHandler (envMem "hi".toList) } []).1
      2 "x$MEMORY@ab!".toList [] 1 "$MEMORY@ab".toList (some "ab".toList)
      { replacementText := some "hi".toList, images := none } "hi".toList
      (by rfl) (by rfl) (by rfl)
  · refine (resolve_splice_first_occurrence_drain
      { pat := Pat.memory, handler := memoryHandler (envMem "hi".toList) } []).2
      3 "x$MEMORY@ab!".toList "xhi!".toList [] [] ?_ (by rfl)
    intro p m o h
    cases h
    rfl

/-- Counterexample to C3 as stated: memory content is not inserted verbatim
for dollar-containing content; `String.replace` expands dollar escape
sequences.  With `getMemory` returning the two-character string `$$`, the
marker is replaced by the single character `$`. -/
theorem memory_not_verbatim_cex :
    preProcess (envMem "$$".toList) 9 [] "$MEMORY@a".toList
      = some { modifiedPrompt := "$".toList, images := some [] }
    ∧ "$".toList ≠ "$$".toList :=
  ⟨by rfl, by decide⟩

/-- C3 (amended): a MEMORY occurrence whose retrieval succeeds is replaced
with exactly the returned string — character for character, embedded
whitespace and newlines included — provided the returned string contains no
dollar escape sequence (a dollar directly followed by a dollar, an ampersand,
a backquote or a single quote); on failure the occurrence is replaced with
the literal `[Error with memory retrieval]`. -/
theorem memory_replacement_verbatim (env : Env) (aid prompt : Str)
    (imgs : List Str) (fuel pos : Nat) (matched idr : Str)
    (hexec : execPat Pat.memory prompt 0 = some (pos, matched, some idr)) :
    (∀ mem, env.getAgentMemory idr = Except.ok mem →
      noDollarEscape mem = true →
      runProc { pat := Pat.memory, handler := memoryHandler env } aid
          (fuel + 1) prompt 0 imgs
        = runProc { pat := Pat.memory, handler := memoryHandler env } aid
            fuel (prompt.take pos ++ mem ++ prompt.drop (pos + matched.length))
            0 imgs)
    ∧ (∀ e, env.getAgentMemory idr = Except.error e →
      runProc { pat := Pat.memory, handler := memoryHandler env } aid
          (fuel + 1) prompt 0 imgs
        = runProc { pat := Pat.memory, handler := memoryHandler env } aid
            fuel (prompt.take pos ++ errMemory
              ++ prompt.drop (pos + matched.length)) 0 imgs) := by
  have hfind := execPat_findTok hexec
  constructor
  · intro mem hmem hesc
    have hh : memoryHandler env aid prompt (matched, some idr)
        = Except.ok { replacementText := some mem, images := none } := by
      simp [memoryHandler, hmem]
    have hstep := @runProc_step_replace
      { pat := Pat.memory, handler := memoryHandler env } aid prompt imgs fuel
      0 pos matched (some idr)
      { replacementText := some mem, images := none } mem hexec hh rfl
    rw [hstep, jsReplace_eq_of_findTok hfind hesc]
    rfl
  · intro e he
    have hh : memoryHandler env aid prompt (matched, some idr)
        = Except.ok { replacementText := some errMemory, images := none } := by
      simp [memoryHandler, he]
    have hstep := @runProc_step_replace
      { pat := Pat.memory, handler := memoryHandler env } aid prompt imgs fuel
      0 pos matched (some idr)
      { replacementText := some errMemory, images := none } errMemory hexec
      hh rfl
    rw [hstep, jsReplace_eq_of_findTok hfind (by decide)]
    rfl

/-- Witness for the amended C3: a successful retrieval with embedded
whitespace and a failing retrieval, at concrete inputs. -/
theorem memory_replacement_verbatim_witness :
    runProc
        { pat := Pat.memory, handler := memoryHandler (envMem "m1 m2".toList) }
        [] 5 "$MEMORY@a end".toList 0 []
      = runProc
          { pat := Pat.memory, handler := memoryHandler (envMem "m1 m2".toList) }
          [] 4 ("$MEMORY@a end".toList.take 0 ++ "m1 m2".toList
            ++ "$MEMORY@a end".toList.drop (0 + "$MEMORY@a".toList.length)) 0 []
    ∧ runProc { pat := Pat.memory, handler := memoryHandler envBase }
        [] 5 "$MEMORY@a end".toList 0 []
      = runProc { pat := Pat.memory, handler := memoryHandler envBase }
          [] 4 ("$MEMORY@a end".toList.take 0 ++ errMemory
            ++ "$MEMORY@a end".toList.drop (0 + "$MEMORY@a".toList.length)) 0 [] := by
  constructor
  · exact (memory_replacement_verbatim (envMem "m1 m2".toList) []
      "$MEMORY@a end".toList [] 4 0 "$MEMORY@a".toList "a".toList
      (by rfl)).1 "m1 m2".toList rfl (by decide)
  · exact (memory_replacement_verbatim envBase []
      "$MEMORY@a end".toList [] 4 0 "$MEMORY@a".toList "a".toList
      (by rfl)).2 "na".toList rfl

/-- Counterexample to C4 as stated: on the full-rollback failure path the
`images` field of the returned result is absent (`none`, modelling
`undefined`), not a defined sequence. -/
theorem images_undefined_on_rollback_cex :
    preProcessWith [throwProc "$B".toList "boom".toList] 9 [] "$B".toList
      = some { modifiedPrompt := "$B".toList, images := none }
    ∧ ({ modifiedPrompt := "$B".toList, images := none } :
        PreProcessorResult).images.isSome = false :=
  ⟨by rfl, rfl⟩

/-- C4 (amended): with the registered resolvers — none of which can throw —
every result returned by `preProcess` carries a defined (possibly empty)
`images` sequence; on the engine's full-rollback path, which requires an
exception escaping a resolver, the result's `images` field is instead
absent. -/
theorem images_defined_normal_path (env : Env) (fuel : Nat) (aid tmpl : Str) :
    (∀ r, preProcess env fuel aid tmpl = some r → r.images.isSome = true)
    ∧ (∀ procs e r, runProcs aid fuel procs tmpl [] = some (Except.error e) →
      preProcessWith procs fuel aid tmpl = some r → r.images = none) := by
  constructor
  · intro r hr
    rw [preProcess, preProcessWith] at hr
    rcases hrun : runProcs aid fuel (processorsList env) tmpl [] with _ | exc
    · rw [hrun] at hr
      cases hr
    · rcases exc with e | ⟨p2, i2⟩
      · exact absurd hrun (runProcs_noThrow
          (fun q hq p m => processors_handlers_ok env q hq aid p m))
      · rw [hrun] at hr
        cases hr
        rfl
  · intro procs e r herr hres
    rw [preProcessWith, herr] at hres
    cases hres
    rfl

/-- Witness for the amended C4: a normal run has a defined image list; a
rollback run has an absent one. -/
theorem images_defined_normal_path_witness :
    ({ modifiedPrompt := "mv".toList, images := some [] } :
      PreProcessorResult).images.isSome = true
    ∧ ({ modifiedPrompt := "$B".toList, images := none } :
      PreProcessorResult).images = none := by
  constructor
  · exact (images_defined_normal_path (envMem "mv".toList) 3 []
      "$MEMORY@a".toList).1
      { modifiedPrompt := "mv".toList, images := some [] } (by rfl)
  · exact (images_defined_normal_path envBase 9 [] "$B".toList).2
      [throwProc "$B".toList "boom".toList] "boom".toList
      { modifiedPrompt := "$B".toList, images := none } (by rfl) (by rfl)

/-- Counterexample to C5 as stated: a successful OCR text `T` is not spliced
verbatim — dollar escape sequences expand — so an occurrence need not be
replaced by `T`.  With `T` the two-character text `$$`, the single marker is
replaced by `$`. -/
theorem ocr_replacement_not_exact_cex :
    preProcess (envOcr "$$".toList) 9 [] "$SCREEN_OCR".toList
      = some { modifiedPrompt := "$".toList, images := some [] }
    ∧ "$".toList ≠ "$$".toList :=
  ⟨by rfl, by decide⟩

/-- C5 (amended): for a template of dollar-free segments interleaved with
`n ≥ 0` SCREEN_OCR markers, if every OCR resolution succeeds with the same
non-empty dollar-free text `T`, then `preProcess` replaces each marker
occurrence with `T` exactly once — independent of the occurrence count — and
attaches no images. -/
theorem ocr_replaces_each_occurrence (env : Env) (aid T s0 : Str)
    (ss : List Str) (fuel : Nat)
    (hstart : env.startScreenCapture = Except.ok (some ()))
    (hocr : env.captureFrameAndOCR = Except.ok (true, some T))
    (hT : dollarFree T = true) (hTne : T ≠ [])
    (hsegs : ∀ s ∈ s0 :: ss, dollarFree s = true)
    (hfuel : ss.length + 1 ≤ fuel) :
    preProcess env fuel aid (joinTok ocrTok s0 ss)
      = some { modifiedPrompt := joinTok T s0 ss, images := some [] } := by
  have hdrain := runProc_ocr_drain env aid T hstart hocr hT hTne ss s0 []
    fuel hfuel hsegs
  have hfree : dollarFree (joinTok T s0 ss) = true := dollarFree_joinTok hT hsegs
  rcases fuel with _ | f
  · simp at hfuel
  · have hmem : execPat Pat.memory (joinTok T s0 ss) 0 = none :=
      @execPat_none_of_dollarFree Pat.memory [] (Or.inr rfl) _ hfree
    have hs64tok : s64Tok = '$' :: "SCREEN_64".toList := by decide
    have hs64 : execPat (Pat.lit s64Tok) (joinTok T s0 ss) 0 = none :=
      execPat_none_of_dollarFree (Or.inl (by rw [hs64tok])) hfree
    have e2 := @runProc_exit
      { pat := Pat.memory, handler := memoryHandler env } aid
      (joinTok T s0 ss) [] f hmem
    have e3 := @runProc_exit
      { pat := Pat.lit s64Tok, handler := screen64Handler env } aid
      (joinTok T s0 ss) [] f hs64
    simp only [preProcess, preProcessWith, processorsList, runProcs, hdrain,
      e2, e3]

/-- Witness for the amended C5 with two marker occurrences. -/
theorem ocr_replaces_each_occurrence_witness :
    preProcess (envOcr "HELLO".toList) 3 []
        (joinTok ocrTok "a ".toList ["b".toList, []])
      = some
          { modifiedPrompt := joinTok "HELLO".toList "a ".toList ["b".toList, []],
            images := some [] } :=
  ocr_replaces_each_occurrence (envOcr "HELLO".toList) [] "HELLO".toList
    "a ".toList ["b".toList, []] 3 rfl rfl (by decide) (by decide)
    (by decide) (by decide)
